import Mathlib

/-!
Verification development for the stock-stats ingestion-and-enrichment
pipeline.  The definitions below are a shallow embedding of the two
background loops of the repository:

* `market-data-manager/app/main.py`: `fetch_daily_data_from_proxy`
  (tenacity retry around an HTTP GET), `save_market_data` (parse Polygon
  bars, batch INSERT ... ON CONFLICT DO NOTHING) and
  `fetch_and_store_all_tickers` (the per-ticker loop with its sleeps).
* `text-processor/app/main.py`: `fetch_and_store_rss` (check-then-insert
  ingestion with a per-feed commit under a `(source_type,
  source_identifier)` unique constraint), `analyze_new_articles` (select
  up to 5 unanalyzed rows, one un-retried LLM call per row, one commit
  per cycle) and `lifespan` (task start / cancel / gather).

Time is modelled as the sum of the explicit `sleep` calls of the code
(network calls take zero model time), machine-level details (JSON, SQL
text) are replaced by structured values, and each infinite `while True`
loop is embedded as the function computing one cycle of its body.
-/

namespace StockStats

/-! ## Market data manager: data model -/

/-- A Polygon daily aggregate bar as consumed by `save_market_data`.
`t` is the millisecond timestamp (`bar.get('t')`, absent when the key is
missing), and `o`/`h`/`l`/`c`/`v` are the open/high/low/close/volume
fields (`bar.get(...)`, each possibly absent).  Prices are modelled as
opaque integers: no claim performs arithmetic on them. -/
structure Bar where
  t : Option Nat
  o : Option Int
  h : Option Int
  l : Option Int
  c : Option Int
  v : Option Int
deriving DecidableEq

/-- The proxy's successful JSON payload as used by `save_market_data`:
only `resultsCount` and `results` are read. -/
structure PolygonData where
  resultsCount : Nat
  results : List Bar
deriving DecidableEq

/-- A row of the `market_data_daily` table as built by
`save_market_data` (the `rows_to_insert` dict). `date` is the day index
derived from the millisecond timestamp; `fetched_at` is the wall-clock
tag `datetime.now(timezone.utc)`. -/
structure Row where
  ticker : String
  date : Nat
  open_ : Option Int
  high : Option Int
  low : Option Int
  close : Option Int
  adjusted_close : Option Int
  volume : Option Int
  fetched_at : Nat
deriving DecidableEq

/-- Upper bound (in seconds) accepted by Python's
`datetime.fromtimestamp`; a larger timestamp raises inside the per-bar
`try`, which the code turns into `continue` (skip this bar). -/
def PY_MAX_TIMESTAMP : Nat := 253402300800

/-- One iteration of the `for bar in polygon_data["results"]` body of
`save_market_data`: skip the bar when `t` is missing, skip it when the
date conversion raises, otherwise build the `rows_to_insert` entry.
Both `close` and `adjusted_close` are set from `bar.get('c')`, exactly
as in the source. -/
def processBar (ticker : String) (now : Nat) (bar : Bar) : Option Row :=
  match bar.t with
  | none => none
  | some ts =>
    if PY_MAX_TIMESTAMP * 1000 ≤ ts then none
    else some { ticker := ticker, date := ts / 86400000, open_ := bar.o, high := bar.h,
                low := bar.l, close := bar.c, adjusted_close := bar.c, volume := bar.v,
                fetched_at := now }

/-- Whether the table already holds a row for `(ticker, date)` — the
conflict target `index_elements=['ticker', 'date']`. -/
def hasTickerDate (db : List Row) (tk : String) (d : Nat) : Bool :=
  db.any (fun r => r.ticker == tk && r.date == d)

/-- One row of the multi-row `INSERT ... ON CONFLICT (ticker, date) DO
NOTHING`: a conflicting row is silently dropped, a fresh one appended. -/
def insertOnConflictDoNothing (db : List Row) (r : Row) : List Row :=
  if hasTickerDate db r.ticker r.date then db else db ++ [r]

/-- `save_market_data(db, ticker, polygon_data)`.  `commitFails`
abstracts the `try: execute; commit / except: rollback; return 0` block:
when the commit raises, the transaction is rolled back (table unchanged)
and `0` is returned; otherwise the batch is inserted with ON CONFLICT DO
NOTHING and `len(rows_to_insert)` is returned.  The guards mirror the
source: empty `resultsCount`/`results` and an all-skipped batch both
return `0` without touching the table. -/
def save_market_data (commitFails : Bool) (db : List Row) (ticker : String) (now : Nat)
    (pd : PolygonData) : List Row × Nat :=
  if pd.resultsCount == 0 || pd.results.isEmpty then (db, 0)
  else if (pd.results.filterMap (processBar ticker now)).isEmpty then (db, 0)
  else if commitFails then (db, 0)
  else ((pd.results.filterMap (processBar ticker now)).foldl insertOnConflictDoNothing db,
        (pd.results.filterMap (processBar ticker now)).length)

/-! ## Market data manager: rate-limited fetch with tenacity retry -/

/-- Outcome of one HTTP attempt inside `fetch_daily_data_from_proxy`:
a parsed success, an `httpx.RequestError` (network failure), an
`httpx.HTTPStatusError` carrying the status code, or any other exception
(malformed JSON body, unexpected error). -/
inductive AttemptOutcome
  | success (data : PolygonData)
  | requestError
  | httpStatus (code : Nat)
  | malformed
deriving DecidableEq

/-- Result of one whole `fetch_daily_data_from_proxy` call: a parsed
payload, the `{"error": True, "status_code": ...}` dict returned for a
4xx proxy status, or the tenacity `RetryError` raised after the retry
budget is exhausted. -/
inductive FetchResult
  | ok (data : PolygonData)
  | errorDict (code : Nat)
  | exhausted
deriving DecidableEq

/-- Events of one fetch call: the numbered attempts and the fixed waits
tenacity inserts between them. -/
inductive FetchEvent
  | attempt (i : Nat)
  | sleep (secs : Nat)
deriving DecidableEq

/-- `stop_after_attempt(3)` from the tenacity decorator. -/
def STOP_AFTER_ATTEMPT : Nat := 3

/-- `wait_fixed(2)` from the tenacity decorator. -/
def WAIT_FIXED : Nat := 2

/-- The body of `fetch_daily_data_from_proxy` for one attempt: `some`
result means the call returns (success, or the error dict built for a
4xx status including 429); `none` means an exception is re-raised so
tenacity retries (network error, 5xx status, malformed body). -/
def attemptStep : AttemptOutcome → Option FetchResult
  | .success d => some (.ok d)
  | .requestError => none
  | .httpStatus code => if 400 ≤ code ∧ code < 500 then some (.errorDict code) else none
  | .malformed => none

/-- Tenacity's retry driver: run attempt `i`, return on a non-raising
outcome, otherwise wait `WAIT_FIXED` seconds and retry while attempts
remain; raising on the last allowed attempt yields `RetryError`
(`exhausted`).  Returns the result, the number of attempts made, and the
event trace. -/
def retryRun (env : Nat → AttemptOutcome) : Nat → Nat → FetchResult × Nat × List FetchEvent
  | i, 0 => (.exhausted, i, [])
  | i, fuel + 1 =>
    match attemptStep (env i) with
    | some r => (r, i + 1, [.attempt i])
    | none =>
      if fuel == 0 then (.exhausted, i + 1, [.attempt i])
      else
        let rest := retryRun env (i + 1) fuel
        (rest.1, rest.2.1, .attempt i :: .sleep WAIT_FIXED :: rest.2.2)

/-- `fetch_daily_data_from_proxy(ticker)` under the decorator
`@retry(stop=stop_after_attempt(3), wait=wait_fixed(2))`, parameterized
by the outcome of each attempt. -/
def fetch_daily_data_from_proxy (env : Nat → AttemptOutcome) : FetchResult × Nat × List FetchEvent :=
  retryRun env 0 STOP_AFTER_ATTEMPT

/-- Model seconds spent inside a fetch call: the sum of the tenacity
waits (attempts themselves take zero model time). -/
def eventsDuration : List FetchEvent → Nat
  | [] => 0
  | .attempt _ :: es => eventsDuration es
  | .sleep s :: es => s + eventsDuration es

/-! ## Market data manager: the per-ticker loop -/

/-- Seconds slept by `fetch_and_store_all_tickers` after one ticker's
fetch completes: 13 after a successful fetch-and-save, 65 after a 429
error dict, and none after any other error dict or after the tenacity
retries are exhausted (the `continue` paths). -/
def postDelay : FetchResult → Nat
  | .ok _ => 13
  | .errorDict code => if code == 429 then 65 else 0
  | .exhausted => 0

/-- Timing trace of `fetch_and_store_all_tickers`: for each ticker, the
start time of its `fetch_daily_data_from_proxy` call and the call's
result.  Time advances by the waits inside the fetch plus the loop's
post-fetch sleep. -/
def tickerTrace (env : String → Nat → AttemptOutcome) : List String → Nat →
    List (String × Nat × FetchResult)
  | [], _ => []
  | tk :: tks, now =>
    (tk, now, (fetch_daily_data_from_proxy (env tk)).1) ::
      tickerTrace env tks
        (now + eventsDuration (fetch_daily_data_from_proxy (env tk)).2.2 +
          postDelay (fetch_daily_data_from_proxy (env tk)).1)

/-- Storage effect of `fetch_and_store_all_tickers`: a successful fetch
is saved via `save_market_data`; an error dict (4xx including 429) and a
`RetryError` both skip the ticker (`continue`) and leave the table
unchanged, never aborting the loop. -/
def fetch_and_store_all_tickers (env : String → Nat → AttemptOutcome) (now : Nat) :
    List String → List Row → List Row
  | [], db => db
  | tk :: tks, db =>
    match (fetch_daily_data_from_proxy (env tk)).1 with
    | .ok pd => fetch_and_store_all_tickers env now tks (save_market_data false db tk now pd).1
    | .errorDict _ => fetch_and_store_all_tickers env now tks db
    | .exhausted => fetch_and_store_all_tickers env now tks db

/-- Pairwise spacing discipline of a timing trace, relative to a
preceding fetch at time `prev.1` whose result was `prev.2`: each next
fetch starts at least `postDelay prev.2` seconds later. -/
def ConsecGapFrom (prev : Nat × FetchResult) : List (String × Nat × FetchResult) → Prop
  | [] => True
  | b :: rest => prev.1 + postDelay prev.2 ≤ b.2.1 ∧ ConsecGapFrom (b.2.1, b.2.2) rest

/-- Pairwise spacing discipline of a whole timing trace. -/
def ConsecGap : List (String × Nat × FetchResult) → Prop
  | [] => True
  | a :: rest => ConsecGapFrom (a.2.1, a.2.2) rest

/-! ## Text processor: data model -/

/-- A feed entry as read by `fetch_and_store_rss`: `entry.get("id")`,
`entry.get("link")`, `entry.get("title")`, `entry.get("summary")` and
the parsed publication time (abstracted to a single number; `none` when
`entry.published_parsed` is missing or unusable, in which case the
bare `except: pass` leaves `published = None`). -/
structure Entry where
  id : Option String
  link : Option String
  title : Option String
  summary : Option String
  published_parsed : Option Nat
deriving DecidableEq

/-- Python's `a or b` on optional strings: an absent or empty `a` falls
through to `b` (the empty string is falsy). -/
def pyOrStr : Option String → Option String → Option String
  | some s, b => if s == "" then b else some s
  | none, b => b

/-- `source_identifier = entry.get("id") or entry.get("link")`. -/
def sourceIdentifier (e : Entry) : Option String :=
  pyOrStr e.id e.link

/-- A row of the `text_sources` table.  The table carries a
`UniqueConstraint('source_type', 'source_identifier')` and
`source_identifier` is `nullable=False`; both are enforced by
`commitRss` below. -/
structure TextSource where
  id : Nat
  source_type : String
  source_identifier : Option String
  content : String
  published_at : Option Nat
deriving DecidableEq

/-- The deduplication key of a persisted row. -/
def rowKey (r : TextSource) : String × Option String :=
  (r.source_type, r.source_identifier)

/-- The dedup check of the ingestion loop: `select(TextSource).where
(source_type == "rss", source_identifier == ident)` returning a row or
not.  With SQLAlchemy's default autoflush the query also sees the
session's pending (not yet committed) rows, so the caller passes
`committed ++ pending`. -/
def dedupHas (rows : List TextSource) (ident : Option String) : Bool :=
  rows.any (fun r => r.source_type == "rss" && r.source_identifier == ident)

/-- `content = entry.get("title", "") + "\n" + entry.get("summary", "")`. -/
def entryContent (e : Entry) : String :=
  e.title.getD "" ++ "\n" ++ e.summary.getD ""

/-- The `TextSource(...)` object constructed for a new candidate. -/
def entryRow (nid : Nat) (e : Entry) : TextSource :=
  { id := nid, source_type := "rss", source_identifier := sourceIdentifier e,
    content := entryContent e, published_at := e.published_parsed }

/-- One iteration of the `for entry in parsed.entries` body: derive the
identifier, query the dedup store (committed rows plus the session's
pending adds), `continue` when present, otherwise `session.add` a new
row.  The state is the pending list and the next synthetic primary key. -/
def stepEntry (committed : List TextSource) (st : List TextSource × Nat) (e : Entry) :
    List TextSource × Nat :=
  if dedupHas (committed ++ st.1) (sourceIdentifier e) then st
  else (st.1 ++ [entryRow st.2 e], st.2 + 1)

/-- The whole per-feed entry loop, starting from an empty pending set. -/
def processEntries (committed : List TextSource) (nid : Nat) (entries : List Entry) :
    List TextSource × Nat :=
  entries.foldl (stepEntry committed) ([], nid)

/-- `session.commit()` for the pending rows of one feed under the
`text_sources` constraints: a NULL `source_identifier` (NOT NULL) or a
`(source_type, source_identifier)` already persisted (unique constraint)
makes the commit raise `IntegrityError`; otherwise the pending rows
become persisted. -/
def commitRss (committed pending : List TextSource) : Except Unit (List TextSource) :=
  if pending.any (fun r => r.source_identifier == none) then .error ()
  else if pending.any (fun r => dedupHas committed r.source_identifier) then .error ()
  else .ok (committed ++ pending)

/-- The per-feed body of `fetch_and_store_rss`, including its
`try/except`: a fetch/parse failure (`fetch = .error`) is logged and the
loop continues with the table unchanged; otherwise the entries are
check-then-inserted and committed, and a commit failure (IntegrityError
from a racing duplicate) is caught by the same `except`, discarding the
pending rows. -/
def fetch_and_store_rss_feed (committed : List TextSource) (nid : Nat)
    (fetch : Except Unit (List Entry)) : List TextSource × Nat :=
  match fetch with
  | .error _ => (committed, nid)
  | .ok entries =>
    match commitRss committed (processEntries committed nid entries).1 with
    | .ok c => (c, (processEntries committed nid entries).2)
    | .error _ => (committed, nid)

/-- One full cycle of `fetch_and_store_rss`: the `for feed_url in
RSS_FEEDS` loop, each feed carrying its own fetch outcome. -/
def fetch_and_store_rss (feeds : List (Except Unit (List Entry)))
    (committed : List TextSource) (nid : Nat) : List TextSource × Nat :=
  match feeds with
  | [] => (committed, nid)
  | f :: fs =>
    fetch_and_store_rss fs (fetch_and_store_rss_feed committed nid f).1
      (fetch_and_store_rss_feed committed nid f).2

/-- Number of persisted rows for a given `(source_type = "rss",
source_identifier)` key. -/
def countKey (rows : List TextSource) (ident : Option String) : Nat :=
  (rows.filter (fun r => r.source_type == "rss" && r.source_identifier == ident)).length

/-- The `(source_type, source_identifier)` uniqueness invariant of the
`text_sources` table. -/
def uniqueKeys (rows : List TextSource) : Prop :=
  (rows.map rowKey).Nodup

/-! ## Text processor: enrichment loop -/

/-- A row of the `llm_analysis_results` table (the fields the claims
touch). -/
structure LLMAnalysisResult where
  text_source_id : Nat
  analysis_type : String
  result : String
deriving DecidableEq

/-- The storage state shared by the two loops of the text processor. -/
structure TPDB where
  sources : List TextSource
  results : List LLMAnalysisResult
deriving DecidableEq

/-- The selection query of `analyze_new_articles`: sources with no
`llm_analysis_results` row referencing them (any `analysis_type`),
`LIMIT 5`.  The query has no ORDER BY; the model returns the first five
in table order. -/
def selectUnanalyzed (db : TPDB) : List TextSource :=
  (db.sources.filter
    (fun ts => !(db.results.any (fun r => r.text_source_id == ts.id)))).take 5

/-- Outcome of the single `client.post` to the LLM endpoint for one
item: a parsed body, an HTTP error status (`raise_for_status`), or a
transport error. -/
inductive LLMOutcome
  | ok (payload : String)
  | httpError (code : Nat)
  | netError
deriving DecidableEq

/-- The item-level `try/except` of `analyze_new_articles`: any failing
outcome (429 included) is caught, logged and turned into `continue`;
only a successful call yields a result payload. -/
def llmCallOk : LLMOutcome → Option String
  | .ok p => some p
  | .httpError _ => none
  | .netError => none

/-- One cycle of `analyze_new_articles`: select up to five unanalyzed
sources, call the LLM once per item (failures skip the item), add one
result row per success, then commit the batch. -/
def analyze_new_articles (env : Nat → LLMOutcome) (db : TPDB) : TPDB :=
  let batch := selectUnanalyzed db
  let newResults := batch.filterMap (fun ts =>
    (llmCallOk (env ts.id)).map (fun payload =>
      { text_source_id := ts.id, analysis_type := "sentiment", result := payload }))
  { db with results := db.results ++ newResults }

/-- The ids the cycle issues an HTTP request for: exactly one request
per selected item — the code wraps the call in no retry decorator. -/
def analyzeCycleCalls (db : TPDB) : List Nat :=
  (selectUnanalyzed db).map (fun ts => ts.id)

/-- Start times of the cycle's LLM calls, the cycle beginning at `t0`:
the loop body contains no sleep between items, so every call of the
batch starts at `t0` in model time (which counts only explicit sleeps). -/
def enrichCallTimes (db : TPDB) (t0 : Nat) : List (Nat × Nat) :=
  (selectUnanalyzed db).map (fun ts => (ts.id, t0))

/-! ## Lifecycle supervisor and cooperative cancellation -/

/-- Events of the `lifespan` context manager of the text processor. -/
inductive LifespanEvent
  | startTask (n : Nat)
  | appRunning
  | cancelTask (n : Nat)
  | joinTask (n : Nat)
  | released
deriving DecidableEq

/-- The event sequence of `lifespan`: create both loop tasks, yield to
the running app, and on shutdown cancel both and `gather` them (with
`return_exceptions=True`, so both joins complete) before the manager
returns and resources are released. -/
def lifespan : List LifespanEvent :=
  [.startTask 1, .startTask 2, .appRunning,
   .cancelTask 1, .cancelTask 2, .joinTask 1, .joinTask 2, .released]

/-- Await points of one `analyze_new_articles` cycle, in order: the
`session.execute` of the selection query (index 0), one `client.post`
per selected item (indices `1 .. batch`), the `session.commit` (index
`1 + batch`), then the inter-cycle sleep.  asyncio cancellation is
delivered at the task's next await: cancelling at await index `k`
completes the awaits before `k` and aborts the `k`-th, so the commit's
effect lands exactly when `k` is past the commit's index. -/
def cancelledCycleDB (env : Nat → LLMOutcome) (db : TPDB) (k : Nat) : TPDB :=
  if 2 + (selectUnanalyzed db).length ≤ k then analyze_new_articles env db else db

/-! ## Helper lemmas: market data persistence -/

theorem mem_foldl_insert {l acc : List Row} {r : Row}
    (h : r ∈ l.foldl insertOnConflictDoNothing acc) : r ∈ acc ∨ r ∈ l := by
  induction l generalizing acc with
  | nil => exact Or.inl h
  | cons x xs ih =>
    rcases ih h with h1 | h2
    · unfold insertOnConflictDoNothing at h1
      split at h1
      · exact Or.inl h1
      · rcases List.mem_append.mp h1 with h3 | h4
        · exact Or.inl h3
        · simp only [List.mem_singleton] at h4
          subst h4
          exact Or.inr (List.mem_cons_self _ _)
    · exact Or.inr (List.mem_cons_of_mem _ h2)

theorem processBar_adjusted {ticker : String} {now : Nat} {bar : Bar} {r : Row}
    (h : processBar ticker now bar = some r) : r.adjusted_close = r.close := by
  unfold processBar at h
  cases hbt : bar.t with
  | none => rw [hbt] at h; cases h
  | some ts =>
    rw [hbt] at h
    dsimp only at h
    by_cases hc : PY_MAX_TIMESTAMP * 1000 ≤ ts
    · rw [if_pos hc] at h; cases h
    · rw [if_neg hc] at h
      cases h
      rfl

/-! ## Helper lemmas: loop pacing -/

theorem consecGapFrom_tickerTrace (env : String → Nat → AttemptOutcome) :
    ∀ (tks : List String) (t0 : Nat) (prev : Nat × FetchResult),
      prev.1 + postDelay prev.2 ≤ t0 → ConsecGapFrom prev (tickerTrace env tks t0) := by
  intro tks
  induction tks with
  | nil => intro t0 prev _; exact trivial
  | cons tk tks ih =>
    intro t0 prev h
    rw [tickerTrace]
    exact ⟨h, ih _ _ (by dsimp only; omega)⟩

theorem traceConsecGap (env : String → Nat → AttemptOutcome) (tks : List String) (t0 : Nat) :
    ConsecGap (tickerTrace env tks t0) := by
  cases tks with
  | nil => exact trivial
  | cons tk tks =>
    rw [tickerTrace]
    exact consecGapFrom_tickerTrace env tks _ _ (by dsimp only; omega)

/-! ## Helper lemmas: enrichment selection -/

theorem selected_has_no_result {db : TPDB} {ts : TextSource}
    (hts : ts ∈ selectUnanalyzed db) : ∀ r ∈ db.results, r.text_source_id ≠ ts.id := by
  intro r hr hEq
  have hmem : ts ∈ db.sources.filter
      (fun ts => !(db.results.any (fun r => r.text_source_id == ts.id))) :=
    List.take_subset _ _ hts
  have hpred := (List.mem_filter.mp hmem).2
  have hany : db.results.any (fun r0 => r0.text_source_id == ts.id) = true :=
    List.any_eq_true.mpr ⟨r, hr, by simp [hEq]⟩
  rw [hany] at hpred
  cases hpred

/-! ## Helper lemmas: RSS check-then-insert -/

/-- Invariant of a session's pending rows: each is an "rss" row whose
key is fresh with respect to the committed table and whose identifier is
present. -/
def PendingOK (c : List TextSource) (r : TextSource) : Prop :=
  r.source_type = "rss" ∧ dedupHas c r.source_identifier = false ∧ r.source_identifier ≠ none

theorem dedupHas_eq_true_iff (rows : List TextSource) (k : Option String) :
    dedupHas rows k = true ↔ ("rss", k) ∈ rows.map rowKey := by
  simp only [dedupHas, List.any_eq_true, List.mem_map, rowKey, Bool.and_eq_true, beq_iff_eq,
    Prod.mk.injEq]

theorem dedupHas_append (rows ext : List TextSource) (k : Option String) :
    dedupHas (rows ++ ext) k = (dedupHas rows k || dedupHas ext k) := by
  simp [dedupHas, List.any_append]

theorem rowKey_entryRow (n : Nat) (e : Entry) :
    rowKey (entryRow n e) = ("rss", sourceIdentifier e) := rfl

theorem dedupHas_entryRow (n : Nat) (e : Entry) :
    dedupHas [entryRow n e] (sourceIdentifier e) = true := by
  simp [dedupHas, entryRow]

theorem processEntries_prefix (c : List TextSource) (l : List Entry) :
    ∀ (p : List TextSource) (n : Nat), ∃ q, (l.foldl (stepEntry c) (p, n)).1 = p ++ q := by
  induction l with
  | nil => intro p n; exact ⟨[], by simp⟩
  | cons e es ih =>
    intro p n
    rw [List.foldl_cons]
    by_cases hd : dedupHas (c ++ p) (sourceIdentifier e) = true
    · have hstep : stepEntry c (p, n) e = (p, n) := by simp [stepEntry, hd]
      rw [hstep]
      exact ih p n
    · have hstep : stepEntry c (p, n) e = (p ++ [entryRow n e], n + 1) := by
        simp [stepEntry, hd]
      rw [hstep]
      obtain ⟨q, hq⟩ := ih (p ++ [entryRow n e]) (n + 1)
      exact ⟨entryRow n e :: q, by rw [hq, List.append_assoc, List.singleton_append]⟩

theorem processEntries_mem (c : List TextSource) (l : List Entry) :
    ∀ (p : List TextSource) (n : Nat) (e : Entry), e ∈ l →
      dedupHas (c ++ (l.foldl (stepEntry c) (p, n)).1) (sourceIdentifier e) = true := by
  induction l with
  | nil => intro p n e he; cases he
  | cons a as ih =>
    intro p n e he
    rw [List.foldl_cons]
    rcases List.mem_cons.mp he with rfl | hmem
    · by_cases hd : dedupHas (c ++ p) (sourceIdentifier e) = true
      · have hstep : stepEntry c (p, n) e = (p, n) := by simp [stepEntry, hd]
        rw [hstep]
        obtain ⟨q, hq⟩ := processEntries_prefix c as p n
        rw [hq, ← List.append_assoc, dedupHas_append, hd, Bool.true_or]
      · have hstep : stepEntry c (p, n) e = (p ++ [entryRow n e], n + 1) := by
          simp [stepEntry, hd]
        rw [hstep]
        obtain ⟨q, hq⟩ := processEntries_prefix c as (p ++ [entryRow n e]) (n + 1)
        rw [hq, ← List.append_assoc, dedupHas_append, ← List.append_assoc, dedupHas_append,
          dedupHas_entryRow, Bool.or_true, Bool.true_or]
    · exact ih _ _ e hmem

theorem processEntries_sound (c : List TextSource) (l : List Entry) :
    ∀ (p : List TextSource) (n : Nat), (∀ e ∈ l, sourceIdentifier e ≠ none) →
      (∀ r ∈ p, PendingOK c r) → ∀ r ∈ (l.foldl (stepEntry c) (p, n)).1, PendingOK c r := by
  induction l with
  | nil => intro p n _ hp; exact hp
  | cons a as ih =>
    intro p n hids hp
    rw [List.foldl_cons]
    by_cases hd : dedupHas (c ++ p) (sourceIdentifier a) = true
    · have hstep : stepEntry c (p, n) a = (p, n) := by simp [stepEntry, hd]
      rw [hstep]
      exact ih p n (fun e he => hids e (List.mem_cons_of_mem _ he)) hp
    · have hstep : stepEntry c (p, n) a = (p ++ [entryRow n a], n + 1) := by
        simp [stepEntry, hd]
      rw [hstep]
      apply ih _ _ (fun e he => hids e (List.mem_cons_of_mem _ he))
      intro r hr
      rcases List.mem_append.mp hr with h1 | h2
      · exact hp r h1
      · simp only [List.mem_singleton] at h2
        subst h2
        have hfresh : dedupHas (c ++ p) (sourceIdentifier a) = false := by
          simpa using hd
        rw [dedupHas_append] at hfresh
        refine ⟨rfl, ?_, hids a (List.mem_cons_self _ _)⟩
        exact (Bool.or_eq_false_iff.mp hfresh).1

theorem processEntries_nodup (c : List TextSource) (l : List Entry) :
    ∀ (p : List TextSource) (n : Nat), uniqueKeys (c ++ p) →
      uniqueKeys (c ++ (l.foldl (stepEntry c) (p, n)).1) := by
  induction l with
  | nil => intro p n h; exact h
  | cons a as ih =>
    intro p n h
    rw [List.foldl_cons]
    by_cases hd : dedupHas (c ++ p) (sourceIdentifier a) = true
    · have hstep : stepEntry c (p, n) a = (p, n) := by simp [stepEntry, hd]
      rw [hstep]
      exact ih p n h
    · have hstep : stepEntry c (p, n) a = (p ++ [entryRow n a], n + 1) := by
        simp [stepEntry, hd]
      rw [hstep]
      apply ih
      have hfresh : dedupHas (c ++ p) (sourceIdentifier a) = false := by
        simpa using hd
      have hnotmem : ("rss", sourceIdentifier a) ∉ (c ++ p).map rowKey := by
        intro hcon
        rw [← dedupHas_eq_true_iff] at hcon
        rw [hcon] at hfresh
        cases hfresh
      unfold uniqueKeys at h ⊢
      rw [← List.append_assoc, List.map_append, List.nodup_append]
      refine ⟨h, List.nodup_singleton _, ?_⟩
      intro x hx hx2
      simp only [List.map_cons, List.map_nil, List.mem_singleton, rowKey_entryRow] at hx2
      subst hx2
      exact hnotmem hx

theorem commitRss_ok {c p : List TextSource} (h : ∀ r ∈ p, PendingOK c r) :
    commitRss c p = .ok (c ++ p) := by
  unfold commitRss
  have h1 : (p.any fun r => r.source_identifier == none) = false := by
    rw [List.any_eq_false]
    intro r hr
    simpa using (h r hr).2.2
  have h2 : (p.any fun r => dedupHas c r.source_identifier) = false := by
    rw [List.any_eq_false]
    intro r hr
    simp [(h r hr).2.1]
  rw [h1, h2]
  rfl

theorem processEntries_noop (c : List TextSource) (l : List Entry) :
    ∀ n, (∀ e ∈ l, dedupHas c (sourceIdentifier e) = true) →
      l.foldl (stepEntry c) ([], n) = ([], n) := by
  induction l with
  | nil => intro n _; rfl
  | cons a as ih =>
    intro n h
    rw [List.foldl_cons]
    have hstep : stepEntry c ([], n) a = ([], n) := by
      simp [stepEntry, h a (List.mem_cons_self _ _)]
    rw [hstep]
    exact ih n (fun e he => h e (List.mem_cons_of_mem _ he))

theorem countKey_append (a b : List TextSource) (k : Option String) :
    countKey (a ++ b) k = countKey a k + countKey b k := by
  simp [countKey, List.filter_append]

theorem countKey_eq_zero {rows : List TextSource} {k : Option String}
    (h : dedupHas rows k = false) : countKey rows k = 0 := by
  unfold countKey
  rw [List.length_eq_zero, List.filter_eq_nil_iff]
  intro r hr
  intro hcon
  rw [Bool.eq_false_iff] at h
  exact h (List.any_eq_true.mpr ⟨r, hr, hcon⟩)

theorem countKey_eq_one {rows : List TextSource} {k : Option String}
    (hn : uniqueKeys rows) (hm : dedupHas rows k = true) : countKey rows k = 1 := by
  induction rows with
  | nil => cases hm
  | cons r rs ih =>
    have hn2 : uniqueKeys rs ∧ rowKey r ∉ rs.map rowKey := by
      unfold uniqueKeys at hn ⊢
      rw [List.map_cons, List.nodup_cons] at hn
      exact ⟨hn.2, hn.1⟩
    by_cases hr : (r.source_type == "rss" && r.source_identifier == k) = true
    · have hkey : rowKey r = ("rss", k) := by
        rw [Bool.and_eq_true, beq_iff_eq, beq_iff_eq] at hr
        unfold rowKey
        rw [hr.1, hr.2]
      have hfresh : dedupHas rs k = false := by
        rw [Bool.eq_false_iff]
        intro hcon
        have := (dedupHas_eq_true_iff rs k).mp hcon
        rw [← hkey] at this
        exact hn2.2 this
      have h0 := countKey_eq_zero hfresh
      unfold countKey at h0 ⊢
      simp only [List.filter_cons, hr, if_true, List.length_cons]
      omega
    · have hm2 : dedupHas rs k = true := by
        unfold dedupHas at hm
        rw [List.any_cons] at hm
        rcases Bool.or_eq_true_iff.mp hm with h1 | h2
        · exact absurd h1 hr
        · exact h2
      have := ih hn2.1 hm2
      unfold countKey at this ⊢
      simp only [List.filter_cons, hr, if_false]
      simpa using this

/-! ## Helper lemmas: market idempotence -/

theorem processBar_key (tk : String) (n1 n2 : Nat) (bar : Bar) :
    (processBar tk n1 bar).map (fun r => (r.ticker, r.date)) =
      (processBar tk n2 bar).map (fun r => (r.ticker, r.date)) := by
  unfold processBar
  cases bar.t with
  | none => rfl
  | some ts =>
    dsimp only
    split
    · rfl
    · rfl

theorem hasTickerDate_insert {acc : List Row} {r : Row} {k : String} {d : Nat}
    (h : hasTickerDate acc k d = true) :
    hasTickerDate (insertOnConflictDoNothing acc r) k d = true := by
  unfold insertOnConflictDoNothing
  split
  · exact h
  · simp [hasTickerDate, List.any_append] at h ⊢
    exact Or.inl h

theorem hasTickerDate_foldl {l acc : List Row} {k : String} {d : Nat}
    (h : hasTickerDate acc k d = true) :
    hasTickerDate (l.foldl insertOnConflictDoNothing acc) k d = true := by
  induction l generalizing acc with
  | nil => exact h
  | cons x xs ih => exact ih (hasTickerDate_insert h)

theorem hasTickerDate_foldl_mem {l acc : List Row} {r : Row} (hr : r ∈ l) :
    hasTickerDate (l.foldl insertOnConflictDoNothing acc) r.ticker r.date = true := by
  induction l generalizing acc with
  | nil => cases hr
  | cons x xs ih =>
    rcases List.mem_cons.mp hr with rfl | hmem
    · rw [List.foldl_cons]
      apply hasTickerDate_foldl
      unfold insertOnConflictDoNothing
      split
      · assumption
      · simp [hasTickerDate, List.any_append]
    · exact ih hmem

theorem foldl_insert_noop {l acc : List Row}
    (h : ∀ r ∈ l, hasTickerDate acc r.ticker r.date = true) :
    l.foldl insertOnConflictDoNothing acc = acc := by
  induction l with
  | nil => rfl
  | cons x xs ih =>
    rw [List.foldl_cons]
    have hx : insertOnConflictDoNothing acc x = acc := by
      simp [insertOnConflictDoNothing, h x (List.mem_cons_self _ _)]
    rw [hx]
    exact ih (fun r hr => h r (List.mem_cons_of_mem _ hr))

theorem filterMap_key_congr (tk : String) (n1 n2 : Nat) (l : List Bar) :
    (l.filterMap (processBar tk n1)).map (fun r => (r.ticker, r.date)) =
      (l.filterMap (processBar tk n2)).map (fun r => (r.ticker, r.date)) := by
  induction l with
  | nil => rfl
  | cons b bs ih =>
    rw [List.filterMap_cons, List.filterMap_cons]
    have hb := processBar_key tk n1 n2 b
    cases h1 : processBar tk n1 b with
    | none =>
      cases h2 : processBar tk n2 b with
      | none => exact ih
      | some r2 => rw [h1, h2] at hb; cases hb
    | some r1 =>
      cases h2 : processBar tk n2 b with
      | none => rw [h1, h2] at hb; cases hb
      | some r2 =>
        rw [h1, h2] at hb
        simp only [Option.map_some'] at hb
        simp only [List.map_cons, ih]
        rw [show ((r1.ticker, r1.date) : String × Nat) = (r2.ticker, r2.date) from
          Option.some.inj hb]

theorem save_market_data_idem (db : List Row) (tk : String) (n1 n2 : Nat)
    (pd : PolygonData) :
    (save_market_data false (save_market_data false db tk n1 pd).1 tk n2 pd).1 =
      (save_market_data false db tk n1 pd).1 := by
  by_cases hg : (pd.resultsCount == 0 || pd.results.isEmpty) = true
  · simp [save_market_data, hg]
  · have hkeys := filterMap_key_congr tk n2 n1 pd.results
    by_cases hE : (pd.results.filterMap (processBar tk n1)).isEmpty = true
    · have hE2 : (pd.results.filterMap (processBar tk n2)).isEmpty = true := by
        have hlen : (pd.results.filterMap (processBar tk n2)).length =
            (pd.results.filterMap (processBar tk n1)).length := by
          rw [← List.length_map (pd.results.filterMap (processBar tk n2))
              (fun r => (r.ticker, r.date)), hkeys, List.length_map]
        rw [List.isEmpty_iff_length_eq_zero] at hE ⊢
        omega
      simp [save_market_data, hg, hE, hE2]
    · have hE2 : ¬(pd.results.filterMap (processBar tk n2)).isEmpty = true := by
        have hlen : (pd.results.filterMap (processBar tk n2)).length =
            (pd.results.filterMap (processBar tk n1)).length := by
          rw [← List.length_map (pd.results.filterMap (processBar tk n2))
              (fun r => (r.ticker, r.date)), hkeys, List.length_map]
        rw [List.isEmpty_iff_length_eq_zero] at hE ⊢
        omega
      have hdb1 : (save_market_data false db tk n1 pd).1 =
          (pd.results.filterMap (processBar tk n1)).foldl insertOnConflictDoNothing db := by
        simp [save_market_data, hg, hE]
      rw [hdb1]
      have hfix : (save_market_data false
          ((pd.results.filterMap (processBar tk n1)).foldl insertOnConflictDoNothing db)
          tk n2 pd).1 =
          (pd.results.filterMap (processBar tk n2)).foldl insertOnConflictDoNothing
            ((pd.results.filterMap (processBar tk n1)).foldl insertOnConflictDoNothing db) := by
        simp [save_market_data, hg, hE2]
      rw [hfix]
      apply foldl_insert_noop
      intro r2 hr2
      have hmem2 : ((r2.ticker, r2.date) : String × Nat) ∈
          (pd.results.filterMap (processBar tk n2)).map (fun r => (r.ticker, r.date)) :=
        List.mem_map_of_mem _ hr2
      rw [hkeys] at hmem2
      rcases List.mem_map.mp hmem2 with ⟨r1, hr1, hk⟩
      have hpres := @hasTickerDate_foldl_mem _ db _ hr1
      have ht : r1.ticker = r2.ticker := congrArg Prod.fst hk
      have hd : r1.date = r2.date := congrArg Prod.snd hk
      rw [← ht, ← hd]
      exact hpres

/-! ## Claim theorems -/

/-- C2: in every enrichment cycle, the loop selects at most 5
SourceItems that have no EnrichmentResult for the target analysisType,
and an item is never selected again once an EnrichmentResult exists for
that (sourceItemRef, analysisType) pair.  The selection query excludes
items having a result row of any `analysis_type`, so in particular a
selected item has none for the target type, and an item with a result
for the `(item, type)` pair is excluded. -/
theorem C2_enrichment_selection (db : TPDB) :
    (selectUnanalyzed db).length ≤ 5 ∧
    ∀ ts ∈ selectUnanalyzed db, ∀ r ∈ db.results, r.text_source_id ≠ ts.id := by
  constructor
  · simp only [selectUnanalyzed, List.length_take]
    exact min_le_left _ _
  · intro ts hts
    exact selected_has_no_result hts

/-- C2 witness: a concrete store with two sources and one result row
referencing the second; the first is selected and distinct from the
result's reference. -/
def dbC2 : TPDB :=
  { sources := [{ id := 0, source_type := "rss", source_identifier := some "a",
                  content := "x", published_at := none },
                { id := 1, source_type := "rss", source_identifier := some "b",
                  content := "y", published_at := none }],
    results := [{ text_source_id := 1, analysis_type := "sentiment", result := "r" }] }

theorem C2_enrichment_selection_witness :
    (selectUnanalyzed dbC2).length ≤ 5 ∧
    ({ text_source_id := 1, analysis_type := "sentiment", result := "r" }
      : LLMAnalysisResult).text_source_id ≠
      ({ id := 0, source_type := "rss", source_identifier := some "a",
         content := "x", published_at := none } : TextSource).id :=
  ⟨(C2_enrichment_selection dbC2).1,
   (C2_enrichment_selection dbC2).2 _ (by decide) _ (by decide)⟩

/-- C3 (amended): for the market-data proxy fetch, an all-transient run
makes exactly 3 attempts with a fixed 2-second wait between attempts,
after which the ticker is skipped without aborting the owning cycle; the
enrichment (LLM) fetch, by contrast, is not wrapped in any retry and
makes exactly one HTTP request per selected item. -/
theorem C3_retry_policy_amended :
    (∀ env : Nat → AttemptOutcome, (∀ i, i < 3 → attemptStep (env i) = none) →
      fetch_daily_data_from_proxy env =
        (.exhausted, 3, [.attempt 0, .sleep 2, .attempt 1, .sleep 2, .attempt 2])) ∧
    (∀ (env : String → Nat → AttemptOutcome) (now : Nat) (tk : String)
      (tks : List String) (db : List Row),
      (fetch_daily_data_from_proxy (env tk)).1 = .exhausted →
      fetch_and_store_all_tickers env now (tk :: tks) db =
        fetch_and_store_all_tickers env now tks db) ∧
    (∀ db : TPDB, (analyzeCycleCalls db).length = (selectUnanalyzed db).length) := by
  refine ⟨?_, ?_, ?_⟩
  · intro env h
    have h0 := h 0 (by omega)
    have h1 := h 1 (by omega)
    have h2 := h 2 (by omega)
    simp [fetch_daily_data_from_proxy, STOP_AFTER_ATTEMPT, WAIT_FIXED, retryRun, h0, h1, h2]
  · intro env now tk tks db h
    simp only [fetch_and_store_all_tickers]
    rw [h]
  · intro db
    simp [analyzeCycleCalls]

/-- C3 witness: a proxy whose every attempt raises a network error is
attempted exactly 3 times with 2-second waits, and its ticker is skipped
while the loop goes on. -/
theorem C3_retry_policy_witness :
    fetch_daily_data_from_proxy (fun _ => .requestError) =
      (.exhausted, 3, [.attempt 0, .sleep 2, .attempt 1, .sleep 2, .attempt 2]) ∧
    fetch_and_store_all_tickers (fun _ _ => .requestError) 0 ["AAPL"] [] = [] :=
  ⟨C3_retry_policy_amended.1 _ (fun _ _ => rfl),
   C3_retry_policy_amended.2.1 (fun _ _ => .requestError) 0 "AAPL" [] [] rfl⟩

/-- C3 counterexample store: one pending article with id 7. -/
def dbC3 : TPDB :=
  { sources := [{ id := 7, source_type := "rss", source_identifier := some "u",
                  content := "c", published_at := none }],
    results := [] }

/-- C3 counterexample: against the claim, the enrichment fetch of
`analyze_new_articles` makes exactly 1 request (not 3) for an item whose
call keeps failing with a transient network error; the item is merely
skipped for the cycle. -/
theorem C3_enrichment_single_attempt_counterexample :
    analyzeCycleCalls dbC3 = [7] ∧
    analyze_new_articles (fun _ => .netError) dbC3 = dbC3 ∧
    (1 : Nat) ≠ 3 := by
  refine ⟨rfl, ?_, by decide⟩
  rfl

/-- C4 (amended): a fetch failing with a 4xx status aborts immediately
without consuming remaining retries and is reported distinctly (as the
error dict, not an exception), and the caller skips that ticker and
continues with the rest of the cycle; a malformed response, however, is
treated as transient and retried up to the 3-attempt budget. -/
theorem C4_permanent_failure_amended :
    (∀ (env : Nat → AttemptOutcome) (code : Nat), 400 ≤ code → code < 500 →
      env 0 = .httpStatus code →
      fetch_daily_data_from_proxy env = (.errorDict code, 1, [.attempt 0])) ∧
    (∀ (env : String → Nat → AttemptOutcome) (now : Nat) (tk : String)
      (tks : List String) (db : List Row) (code : Nat),
      (fetch_daily_data_from_proxy (env tk)).1 = .errorDict code →
      fetch_and_store_all_tickers env now (tk :: tks) db =
        fetch_and_store_all_tickers env now tks db) ∧
    (∀ env : Nat → AttemptOutcome, (∀ i, i < 3 → env i = .malformed) →
      fetch_daily_data_from_proxy env =
        (.exhausted, 3, [.attempt 0, .sleep 2, .attempt 1, .sleep 2, .attempt 2])) := by
  refine ⟨?_, ?_, ?_⟩
  · intro env code h4 h5 henv
    have hstep : attemptStep (env 0) = some (.errorDict code) := by
      rw [henv]
      simp [attemptStep, h4, h5]
    simp [fetch_daily_data_from_proxy, STOP_AFTER_ATTEMPT, retryRun, hstep]
  · intro env now tk tks db code h
    simp only [fetch_and_store_all_tickers]
    rw [h]
  · intro env h
    have h0 : attemptStep (env 0) = none := by rw [h 0 (by omega)]; rfl
    have h1 : attemptStep (env 1) = none := by rw [h 1 (by omega)]; rfl
    have h2 : attemptStep (env 2) = none := by rw [h 2 (by omega)]; rfl
    simp [fetch_daily_data_from_proxy, STOP_AFTER_ATTEMPT, WAIT_FIXED, retryRun, h0, h1, h2]

/-- C4 witness: a 404 from the proxy ends the fetch at the first
attempt with the distinct error-dict result, and the 404 ticker is
skipped while the loop continues. -/
theorem C4_permanent_failure_witness :
    fetch_daily_data_from_proxy (fun _ => .httpStatus 404) =
      (.errorDict 404, 1, [.attempt 0]) ∧
    fetch_and_store_all_tickers (fun _ _ => .httpStatus 404) 0 ["AAPL"] [] = [] :=
  ⟨C4_permanent_failure_amended.1 _ 404 (by omega) (by omega) rfl,
   C4_permanent_failure_amended.2.1 (fun _ _ => .httpStatus 404) 0 "AAPL" [] [] 404 rfl⟩

/-- C4 counterexample: against the claim, a malformed response does not
abort immediately — the fetch consumes all 3 attempts. -/
theorem C4_malformed_retried_counterexample :
    (fetch_daily_data_from_proxy (fun _ => .malformed)).2.1 = 3 ∧ (3 : Nat) ≠ 1 :=
  ⟨rfl, by decide⟩

/-- C5 (amended): whenever the market-data fetch returns a 429, the
loop sleeps 65 seconds (≥ 60) before the next ticker's fetch — every
consecutive pair of fetches in the timing trace is spaced by at least
the post-delay of the earlier result, and that delay is 65 for a 429;
the enrichment loop performs no such cooldown, but the rate-limited
item does remain pending: no result row for it exists after the cycle. -/
theorem C5_rate_limit_cooldown_amended :
    (∀ (env : String → Nat → AttemptOutcome) (tks : List String) (t0 : Nat),
      ConsecGap (tickerTrace env tks t0)) ∧
    postDelay (.errorDict 429) = 65 ∧ 60 ≤ postDelay (.errorDict 429) ∧
    (∀ (env : Nat → LLMOutcome) (db : TPDB), ∀ ts ∈ selectUnanalyzed db,
      llmCallOk (env ts.id) = none →
      ∀ r ∈ (analyze_new_articles env db).results, r.text_source_id ≠ ts.id) := by
  refine ⟨traceConsecGap, rfl, by decide, ?_⟩
  intro env db ts hts hnone r hr
  simp only [analyze_new_articles, List.mem_append] at hr
  rcases hr with hold | hnew
  · exact selected_has_no_result hts r hold
  · intro hEq
    rcases List.mem_filterMap.mp hnew with ⟨ts2, _, hmap⟩
    rcases Option.map_eq_some'.mp hmap with ⟨p, hp, hgr⟩
    have hid : r.text_source_id = ts2.id := by rw [← hgr]
    rw [hid] at hEq
    rw [hEq] at hp
    rw [hnone] at hp
    cases hp

/-- C5 witness fixtures: two pending articles; the LLM rate-limits the
first (id 0) and answers the second (id 1). -/
def dbC5 : TPDB :=
  { sources := [{ id := 0, source_type := "rss", source_identifier := some "a",
                  content := "x", published_at := none },
                { id := 1, source_type := "rss", source_identifier := some "b",
                  content := "y", published_at := none }],
    results := [] }

/-- The LLM outcomes of the C5 scenario. -/
def envC5 : Nat → LLMOutcome :=
  fun i => if i == 0 then .httpError 429 else .ok "p"

/-- The one result row the C5 cycle commits (for the non-rate-limited
item). -/
def resC5 : LLMAnalysisResult :=
  { text_source_id := 1, analysis_type := "sentiment", result := "p" }

/-- The rate-limited item of the C5 scenario. -/
def tsC5 : TextSource :=
  { id := 0, source_type := "rss", source_identifier := some "a",
    content := "x", published_at := none }

theorem C5_rate_limit_cooldown_witness :
    postDelay (.errorDict 429) = 65 ∧ resC5.text_source_id ≠ tsC5.id :=
  ⟨C5_rate_limit_cooldown_amended.2.1,
   C5_rate_limit_cooldown_amended.2.2.2 envC5 dbC5 tsC5 (by decide) rfl resC5 (by decide)⟩

/-- C5 counterexample: against the claim, after the enrichment call for
item 0 returns a 429 the loop does not suspend calls to the service —
the next call (item 1) happens at the same model time, not ≥ 60 seconds
later. -/
theorem C5_enrichment_no_cooldown_counterexample :
    envC5 0 = .httpError 429 ∧
    enrichCallTimes dbC5 100 = [(0, 100), (1, 100)] ∧
    ¬(100 + 60 ≤ 100) := by
  refine ⟨rfl, rfl, by decide⟩

/-- C6 (amended): consecutive fetches of the ticker loop are spaced by
at least the post-delay of the earlier fetch's outcome, and that delay
is the configured 13 seconds after a successful fetch-and-save; after a
fetch that ended in a non-429 error dict (or in retry exhaustion) the
delay is 0 — the next fetch may start immediately, so the minimum
spacing holds only between a successful fetch and its successor. -/
theorem C6_pacing_amended :
    (∀ (env : String → Nat → AttemptOutcome) (tks : List String) (t0 : Nat),
      ConsecGap (tickerTrace env tks t0)) ∧
    (∀ d : PolygonData, postDelay (.ok d) = 13) ∧
    postDelay (.errorDict 404) = 0 ∧ postDelay .exhausted = 0 :=
  ⟨traceConsecGap, fun _ => rfl, rfl, rfl⟩

/-- C6 counterexample payload: one valid daily bar. -/
def pdC6 : PolygonData :=
  { resultsCount := 1,
    results := [{ t := some 86400000, o := some 1, h := some 2, l := some 0,
                  c := some 1, v := some 9 }] }

/-- C6 counterexample outcomes: ticker A always gets a 404 from the
proxy, ticker B succeeds. -/
def envC6 : String → Nat → AttemptOutcome :=
  fun tk _ => if tk == "A" then .httpStatus 404 else .success pdC6

/-- C6 counterexample: against the claim, the fetch for ticker B starts
0 seconds after the fetch for ticker A (whose result was a 404 error
dict), not ≥ 13 seconds — the 13-second sleep is only paid on the
success path. -/
theorem C6_no_spacing_after_error_counterexample :
    tickerTrace envC6 ["A", "B"] 0 =
      [("A", 0, .errorDict 404), ("B", 0, .ok pdC6)] ∧
    ¬(0 + 13 ≤ 0) := by
  refine ⟨rfl, by decide⟩

/-- C7: in every ingestion cycle, a fetch failure on one source is
caught and the loop continues to the next source — a cycle with a
failing feed computes exactly what the same cycle without that feed
computes — and a bar whose parsing fails (missing or out-of-range
timestamp) is skipped on its own, leaving the rest of the batch's bars
processed: `save_market_data` on a batch containing a failing bar equals
`save_market_data` on the batch without it. -/
theorem C7_failure_isolation :
    (∀ (fs1 fs2 : List (Except Unit (List Entry))) (c0 : List TextSource) (nid : Nat),
      fetch_and_store_rss (fs1 ++ .error () :: fs2) c0 nid =
        fetch_and_store_rss (fs1 ++ fs2) c0 nid) ∧
    (∀ (cf : Bool) (db : List Row) (tk : String) (now rc : Nat)
      (bars1 bars2 : List Bar) (bad : Bar), processBar tk now bad = none →
      save_market_data cf db tk now ⟨rc, bars1 ++ bad :: bars2⟩ =
        save_market_data cf db tk now ⟨rc, bars1 ++ bars2⟩) := by
  constructor
  · intro fs1 fs2 c0 nid
    induction fs1 generalizing c0 nid with
    | nil => rfl
    | cons f fs ih =>
      simp only [List.cons_append, fetch_and_store_rss]
      exact ih _ _
  · intro cf db tk now rc bars1 bars2 bad h
    have hrows : (bars1 ++ bad :: bars2).filterMap (processBar tk now) =
        (bars1 ++ bars2).filterMap (processBar tk now) := by
      simp [List.filterMap_append, List.filterMap_cons, h]
    by_cases hrc : (rc == 0) = true
    · simp [save_market_data, hrc]
    · by_cases hR : (bars1 ++ bars2).isEmpty = true
      · have hb1 : bars1 = [] := by
          cases bars1 with
          | nil => rfl
          | cons x xs => simp [List.isEmpty] at hR
        subst hb1
        simp only [List.nil_append] at hR hrows ⊢
        have hb2 : bars2 = [] := List.isEmpty_iff.mp hR
        subst hb2
        simp [save_market_data, hrc, h]
      · simp [save_market_data, hrc, hR, hrows]

/-- C7 witness bars: one good bar, one with a missing timestamp. -/
def barGoodC7 : Bar :=
  { t := some 86400000, o := some 1, h := some 2, l := some 0, c := some 1, v := some 9 }

/-- The failing bar of the C7 scenario. -/
def barBadC7 : Bar :=
  { t := none, o := some 1, h := some 2, l := some 0, c := some 1, v := some 9 }

theorem C7_failure_isolation_witness :
    fetch_and_store_rss [.error (), .ok []] [] 0 = fetch_and_store_rss [.ok []] [] 0 ∧
    save_market_data false [] "A" 0 ⟨2, [barGoodC7, barBadC7]⟩ =
      save_market_data false [] "A" 0 ⟨2, [barGoodC7]⟩ :=
  ⟨C7_failure_isolation.1 [] [.ok []] [] 0,
   C7_failure_isolation.2 false [] "A" 0 2 [barGoodC7] [] barBadC7 rfl⟩

/-- C8 (amended): `lifespan` starts both loops as concurrent tasks at
startup and, on shutdown, issues cancellation to both and gathers
(joins) both before the manager returns and shared resources are
released; cancellation, however, is asyncio's — delivered at the task's
next await point, which may fall inside a fetch/persist step rather
than at its end — and what is guaranteed is only that the committed
state is all-or-nothing per cycle (the commit await is atomic), not
that the task reaches the end of its current step. -/
theorem C8_lifecycle_amended :
    LifespanEvent.startTask 1 ∈ lifespan ∧ LifespanEvent.startTask 2 ∈ lifespan ∧
    lifespan.indexOf (LifespanEvent.cancelTask 1) <
      lifespan.indexOf (LifespanEvent.joinTask 1) ∧
    lifespan.indexOf (LifespanEvent.cancelTask 2) <
      lifespan.indexOf (LifespanEvent.joinTask 2) ∧
    lifespan.indexOf (LifespanEvent.joinTask 1) < lifespan.indexOf LifespanEvent.released ∧
    lifespan.indexOf (LifespanEvent.joinTask 2) < lifespan.indexOf LifespanEvent.released ∧
    (∀ (env : Nat → LLMOutcome) (db : TPDB) (k : Nat),
      cancelledCycleDB env db k = db ∨
      cancelledCycleDB env db k = analyze_new_articles env db) := by
  refine ⟨by decide, by decide, by decide, by decide, by decide, by decide, ?_⟩
  intro env db k
  unfold cancelledCycleDB
  split
  · exact Or.inr rfl
  · exact Or.inl rfl

/-- C8 counterexample store: one pending article (id 3). -/
def dbC8 : TPDB :=
  { sources := [{ id := 3, source_type := "rss", source_identifier := some "z",
                  content := "w", published_at := none }],
    results := [] }

/-- LLM outcomes for the C8 scenario: the call succeeds. -/
def envC8 : Nat → LLMOutcome := fun _ => .ok "q"

/-- C8 counterexample: against the claim, cancellation delivered at
await index 2 — while the task awaits `session.commit()`, in the middle
of the persist step — stops the task with the cycle's successfully
fetched result never committed: the store stays at `dbC8`, although the
completed step would have committed a result.  The task did not "reach
the end of the current fetch/persist step". -/
theorem C8_cancel_mid_step_counterexample :
    cancelledCycleDB envC8 dbC8 2 = dbC8 ∧
    analyze_new_articles envC8 dbC8 ≠ dbC8 := by
  exact ⟨rfl, by decide⟩

/-- C1 (amended): ingesting the same payload twice produces exactly one
persisted SourceItem per `(sourceType, sourceIdentifier)` — the RSS loop
is check-then-insert and a second ingestion of the same entries changes
nothing, and the market path's second save of the same bars changes
nothing; the persistence layer enforces uniqueness independently; but
only in the market path (ON CONFLICT DO NOTHING) is a racing duplicate
silently absorbed — in the RSS path the second of two racing commits
raises an integrity error that the loop's handler catches and logs
(exactly one row survives; the error is surfaced to, and absorbed by,
the loop, not by the persistence call). -/
theorem C1_ingestion_idempotent_amended :
    (∀ (c0 : List TextSource) (entries : List Entry) (n1 n2 : Nat),
      uniqueKeys c0 → (∀ e ∈ entries, sourceIdentifier e ≠ none) →
      (fetch_and_store_rss_feed (fetch_and_store_rss_feed c0 n1 (.ok entries)).1 n2
          (.ok entries)).1 = (fetch_and_store_rss_feed c0 n1 (.ok entries)).1 ∧
      uniqueKeys (fetch_and_store_rss_feed c0 n1 (.ok entries)).1 ∧
      ∀ e ∈ entries,
        countKey (fetch_and_store_rss_feed c0 n1 (.ok entries)).1 (sourceIdentifier e) = 1) ∧
    (∀ (db : List Row) (tk : String) (n1 n2 : Nat) (pd : PolygonData),
      (save_market_data false (save_market_data false db tk n1 pd).1 tk n2 pd).1 =
        (save_market_data false db tk n1 pd).1) ∧
    (∀ (c0 : List TextSource) (e : Entry) (n1 n2 : Nat),
      sourceIdentifier e ≠ none → dedupHas c0 (sourceIdentifier e) = false →
      commitRss c0 (processEntries c0 n1 [e]).1 = .ok (c0 ++ [entryRow n1 e]) ∧
      commitRss (c0 ++ [entryRow n1 e]) (processEntries c0 n2 [e]).1 = .error () ∧
      countKey (c0 ++ [entryRow n1 e]) (sourceIdentifier e) = countKey c0 (sourceIdentifier e) + 1) := by
  refine ⟨?_, save_market_data_idem, ?_⟩
  · intro c0 entries n1 n2 hu hids
    have hsound : ∀ r ∈ (processEntries c0 n1 entries).1, PendingOK c0 r :=
      processEntries_sound c0 entries [] n1 hids (by intro r hr; cases hr)
    have hcommit : commitRss c0 (processEntries c0 n1 entries).1 =
        .ok (c0 ++ (processEntries c0 n1 entries).1) := commitRss_ok hsound
    have hfeed : fetch_and_store_rss_feed c0 n1 (.ok entries) =
        (c0 ++ (processEntries c0 n1 entries).1, (processEntries c0 n1 entries).2) := by
      unfold fetch_and_store_rss_feed
      dsimp only
      rw [hcommit]
    have hqu : uniqueKeys (c0 ++ (processEntries c0 n1 entries).1) :=
      processEntries_nodup c0 entries [] n1 (by simpa using hu)
    have hpres : ∀ e ∈ entries,
        dedupHas (c0 ++ (processEntries c0 n1 entries).1) (sourceIdentifier e) = true :=
      fun e he => processEntries_mem c0 entries [] n1 e he
    rw [hfeed]
    refine ⟨?_, hqu, fun e he => countKey_eq_one hqu (hpres e he)⟩
    have hnoop : processEntries (c0 ++ (processEntries c0 n1 entries).1) n2 entries =
        ([], n2) := processEntries_noop _ entries n2 hpres
    have hcommit2 : commitRss (c0 ++ (processEntries c0 n1 entries).1) ([] : List TextSource) =
        .ok ((c0 ++ (processEntries c0 n1 entries).1) ++ []) :=
      commitRss_ok (by intro r hr; cases hr)
    show (fetch_and_store_rss_feed (c0 ++ (processEntries c0 n1 entries).1) n2
        (.ok entries)).1 = c0 ++ (processEntries c0 n1 entries).1
    unfold fetch_and_store_rss_feed
    dsimp only
    rw [show (processEntries (c0 ++ (processEntries c0 n1 entries).1) n2 entries).1 =
        ([] : List TextSource) from congrArg Prod.fst hnoop, hcommit2]
    simp
  · intro c0 e n1 n2 hid hfresh
    have hproc : ∀ n, (processEntries c0 n [e]).1 = [entryRow n e] := by
      intro n
      unfold processEntries
      rw [List.foldl_cons]
      have hstep : stepEntry c0 ([], n) e = ([] ++ [entryRow n e], n + 1) := by
        simp [stepEntry, hfresh]
      rw [hstep]
      rfl
    refine ⟨?_, ?_, ?_⟩
    · rw [hproc n1]
      have := @commitRss_ok c0 [entryRow n1 e]
        (by
          intro r hr
          simp only [List.mem_singleton] at hr
          subst hr
          exact ⟨rfl, hfresh, hid⟩)
      exact this
    · rw [hproc n2]
      unfold commitRss
      have h1 : ([entryRow n2 e].any fun r => r.source_identifier == none) = false := by
        rw [List.any_eq_false]
        intro r hr
        simp only [List.mem_singleton] at hr
        subst hr
        simpa [entryRow] using hid
      have h2 : ([entryRow n2 e].any fun r =>
          dedupHas (c0 ++ [entryRow n1 e]) r.source_identifier) = true := by
        apply List.any_eq_true.mpr
        refine ⟨entryRow n2 e, List.mem_singleton_self _, ?_⟩
        rw [show (entryRow n2 e).source_identifier = sourceIdentifier e from rfl,
          dedupHas_append, dedupHas_entryRow, Bool.or_true]
      rw [h1, h2]
      rfl
    · rw [countKey_append]
      have h1 : countKey [entryRow n1 e] (sourceIdentifier e) = 1 := by
        simp [countKey, entryRow]
      rw [h1]

/-- The entry of the C1 scenarios: identifier "x" from the feed id. -/
def entC1 : Entry :=
  { id := some "x", link := none, title := some "t", summary := none,
    published_parsed := none }

/-- The payload of the C1 market scenario: one valid bar. -/
def pdC1 : PolygonData :=
  { resultsCount := 1,
    results := [{ t := some 86400000, o := some 1, h := some 2, l := some 0,
                  c := some 1, v := some 9 }] }

theorem C1_ingestion_idempotent_witness :
    countKey (fetch_and_store_rss_feed [] 0 (.ok [entC1])).1 (sourceIdentifier entC1) = 1 ∧
    (save_market_data false (save_market_data false [] "A" 0 pdC1).1 "A" 1 pdC1).1 =
      (save_market_data false [] "A" 0 pdC1).1 :=
  ⟨(C1_ingestion_idempotent_amended.1 [] [entC1] 0 5 (by simp [uniqueKeys])
      (by decide)).2.2 entC1 (List.mem_singleton_self _),
   C1_ingestion_idempotent_amended.2.1 [] "A" 0 1 pdC1⟩

/-- C1 counterexample: two racing ingestion cycles, both checking the
empty table before either commits, both pend the same entry; the first
commit succeeds, the second commit violates the unique constraint and
returns an error (the `IntegrityError` the loop catches and logs) —
exactly one row survives, but the duplicate insertion is *not* silently
absorbed with no error surfaced to the loop. -/
theorem C1_race_not_silent_counterexample :
    commitRss [] (processEntries [] 0 [entC1]).1 = .ok [entryRow 0 entC1] ∧
    commitRss [entryRow 0 entC1] (processEntries [] 1 [entC1]).1 = .error () ∧
    countKey [entryRow 0 entC1] (sourceIdentifier entC1) = 1 := by
  refine ⟨rfl, rfl, rfl⟩

/-- C9: if committing the batch insert of market bars fails,
`save_market_data` rolls back the transaction and returns 0 without
raising: the table is unchanged and the returned count is 0, on every
input. -/
theorem C9_commit_failure_rollback (db : List Row) (ticker : String) (now : Nat)
    (pd : PolygonData) : save_market_data true db ticker now pd = (db, 0) := by
  unfold save_market_data
  split
  · rfl
  · split
    · rfl
    · split
      · rfl
      · exact absurd rfl (by assumption)

/-- C10: every row persisted by `save_market_data` that was not already
in the table has its `adjusted_close` equal to its `close` (both are set
from `bar.get('c')`), and a bar whose millisecond timestamp field `t` is
absent is skipped without producing a row. -/
theorem C10_adjusted_close_and_missing_timestamp (cf : Bool) (db : List Row)
    (ticker : String) (now : Nat) (pd : PolygonData) :
    (∀ r ∈ (save_market_data cf db ticker now pd).1, r ∈ db ∨ r.adjusted_close = r.close) ∧
    (∀ bar ∈ pd.results, bar.t = none → processBar ticker now bar = none) := by
  constructor
  · intro r hr
    unfold save_market_data at hr
    split at hr
    · exact Or.inl hr
    · split at hr
      · exact Or.inl hr
      · split at hr
        · exact Or.inl hr
        · rcases mem_foldl_insert hr with h1 | h2
          · exact Or.inl h1
          · obtain ⟨bar, _, hbar⟩ := List.mem_filterMap.mp h2
            exact Or.inr (processBar_adjusted hbar)
  · intro bar _ ht
    unfold processBar
    rw [ht]

/-- C10 witness: a concrete bar with a present timestamp produces a row
with `adjusted_close = close`, and a concrete bar with a missing
timestamp is skipped. -/
def pdC10 : PolygonData :=
  { resultsCount := 2,
    results := [{ t := some 86400000, o := some 1, h := some 2, l := some 0,
                  c := some 1, v := some 9 },
                { t := none, o := some 1, h := some 2, l := some 0,
                  c := some 1, v := some 9 }] }

/-- The single row the C10 witness batch persists. -/
def rowC10 : Row :=
  { ticker := "AAPL", date := 1, open_ := some 1, high := some 2, low := some 0,
    close := some 1, adjusted_close := some 1, volume := some 9, fetched_at := 0 }

theorem C10_adjusted_close_witness :
    processBar "AAPL" 0 { t := none, o := some 1, h := some 2, l := some 0,
                          c := some 1, v := some 9 } = none ∧
    (rowC10 ∈ ([] : List Row) ∨ rowC10.adjusted_close = rowC10.close) :=
  ⟨(C10_adjusted_close_and_missing_timestamp false [] "AAPL" 0 pdC10).2 _ (by decide) rfl,
   (C10_adjusted_close_and_missing_timestamp false [] "AAPL" 0 pdC10).1 rowC10 (by decide)⟩

end StockStats
